import Mathlib

/-!
Verification of the distributed MapReduce engine
(coordinator task-state machine, worker execution, wire encoding),
shallowly embedded from `src/mapreduce/{mapreduce,coordinator,worker}.py`.
-/

namespace MR

/-! ## Data model (`mapreduce.py`) -/

/-- `TaskType` enum from `mapreduce.py`: MAP, REDUCE, WAIT, EXIT. -/
inductive TaskType where
  | map
  | reduce
  | wait
  | exit
deriving DecidableEq, Repr

/-- The `.value` string of each `TaskType` enum member. -/
def TaskType.value : TaskType → String
  | .map => "map"
  | .reduce => "reduce"
  | .wait => "wait"
  | .exit => "exit"

/-- `TaskType(s)` enum construction from a string; the Python constructor
raises `ValueError` on an unknown string, modelled as `none`. -/
def TaskType.ofValue (s : String) : Option TaskType :=
  if s = "map" then some .map
  else if s = "reduce" then some .reduce
  else if s = "wait" then some .wait
  else if s = "exit" then some .exit
  else none

/-- `TaskStatus` enum from `mapreduce.py`: IDLE, IN_PROGRESS, COMPLETED. -/
inductive TaskStatus where
  | idle
  | in_progress
  | completed
deriving DecidableEq, Repr

/-- `KeyValue` dataclass: a (key, value) string pair. -/
structure KeyValue where
  key : String
  value : String
deriving DecidableEq, Repr

/-- `Task` dataclass from `mapreduce.py`. Integer fields are Python ints,
modelled as `Int`; `map_task_id` and `reduce_task_id` default to `-1`. -/
structure Task where
  task_id : Int
  task_type : TaskType
  input_files : List String
  output_file : String
  n_reduce : Int
  map_task_id : Int := -1
  reduce_task_id : Int := -1
deriving DecidableEq, Repr

/-- The dictionary produced by `Task.to_dict`: the seven keys it always
emits.  `map_task_id` / `reduce_task_id` are read back by `from_dict` with
`dict.get(…, -1)`, so they are optional on the wire (`Option Int`). -/
structure TaskDict where
  task_id : Int
  task_type : String
  input_files : List String
  output_file : String
  n_reduce : Int
  map_task_id : Option Int
  reduce_task_id : Option Int
deriving DecidableEq, Repr

/-- `Task.to_dict`: serialize every field, `task_type` as its enum value. -/
def Task.to_dict (t : Task) : TaskDict :=
  { task_id := t.task_id
    task_type := t.task_type.value
    input_files := t.input_files
    output_file := t.output_file
    n_reduce := t.n_reduce
    map_task_id := some t.map_task_id
    reduce_task_id := some t.reduce_task_id }

/-- `Task.from_dict`: rebuild a `Task` from a dictionary.  `TaskType(...)`
raises on an unknown string (hence `Option`); the two id fields fall back
to `-1` when absent, matching `data.get("map_task_id", -1)`. -/
def Task.from_dict (d : TaskDict) : Option Task :=
  match TaskType.ofValue d.task_type with
  | none => none
  | some tt =>
    some { task_id := d.task_id
           task_type := tt
           input_files := d.input_files
           output_file := d.output_file
           n_reduce := d.n_reduce
           map_task_id := d.map_task_id.getD (-1)
           reduce_task_id := d.reduce_task_id.getD (-1) }

/-- `intermediate_filename` from `mapreduce.py`: `mr-{m}-{r}`. -/
def intermediate_filename (map_task_id : Int) (reduce_task_id : Int) : String :=
  "mr-" ++ toString map_task_id ++ "-" ++ toString reduce_task_id

/-- `output_filename` from `mapreduce.py`: `mr-out-{r}`. -/
def output_filename (reduce_task_id : Int) : String :=
  "mr-out-" ++ toString reduce_task_id

/-! ## Partitioning hash (`ihash`) -/

/-- The shape of the source `ihash`: `hash(key) % (2**31 - 1)`, where
`hash` is the host Python string hash.  That hash is seeded per process
(PYTHONHASHSEED), so it is not a fixed function; we model the source by
abstracting over the host hash `h`. -/
def ihash (h : String → Nat) (key : String) : Nat :=
  h key % (2 ^ 31 - 1)

/-- UTF-8 encoding of a single character (code point → byte list). -/
def charUtf8 (c : Char) : List Nat :=
  let n := c.toNat
  if n < 0x80 then [n]
  else if n < 0x800 then [0xC0 + n / 64, 0x80 + n % 64]
  else if n < 0x10000 then
    [0xE0 + n / 4096, 0x80 + (n / 64) % 64, 0x80 + n % 64]
  else
    [0xF0 + n / 262144, 0x80 + (n / 4096) % 64, 0x80 + (n / 64) % 64, 0x80 + n % 64]

/-- UTF-8 bytes of a string. -/
def utf8Bytes (s : String) : List Nat :=
  s.data.flatMap charUtf8

/-- 64-bit FNV-1a over a byte sequence. -/
def fnv1a64Bytes (bs : List Nat) : Nat :=
  bs.foldl (fun acc b => ((acc ^^^ b) * 1099511628211) % 2 ^ 64) 14695981039346656037

/-- 64-bit FNV-1a of a string's UTF-8 bytes. -/
def fnv1a64 (s : String) : Nat :=
  fnv1a64Bytes (utf8Bytes s)

/-- Modelled from the spec: the required partitioning hash — "compute the
64-bit FNV-1a of the key bytes, then take the low 31 bits".  The source's
`ihash` does not implement this (it uses the host hash mod `2**31 - 1`). -/
def ihash_spec (key : String) : Nat :=
  fnv1a64 key % 2 ^ 31

/-! ## Sorting and grouping (`sort_key_values`, `group_by_key`) -/

/-- One insertion step of a stable ascending sort by `kv.key`: the new
element `a` goes after every element whose key is strictly smaller and
before the first element whose key is not (so before equal keys of later
elements, preserving the original relative order of equal keys). -/
def insertKV (a : KeyValue) : List KeyValue → List KeyValue
  | [] => [a]
  | b :: l => if b.key < a.key then b :: insertKV a l else a :: b :: l

/-- `sort_key_values` from `mapreduce.py`: `sorted(key_values, key=kv.key)`.
Python's `sorted` is a stable ascending sort by the key function; a stable
sort's output is uniquely determined, so the stable insertion sort below is
extensionally the same function. -/
def sort_key_values (key_values : List KeyValue) : List KeyValue :=
  key_values.foldr insertKV []

/-- The loop of `group_by_key`: `current_key`/`current_values` are the
group being accumulated; a differing key flushes the current group and
starts a new one. -/
def groupGo (current_key : String) (current_values : List String) :
    List KeyValue → List (String × List String)
  | [] => [(current_key, current_values)]
  | kv :: rest =>
    if kv.key = current_key then groupGo current_key (current_values ++ [kv.value]) rest
    else (current_key, current_values) :: groupGo kv.key [kv.value] rest

/-- `group_by_key` from `mapreduce.py`: group consecutive equal keys of a
sorted key/value list. -/
def group_by_key : List KeyValue → List (String × List String)
  | [] => []
  | kv :: rest => groupGo kv.key [kv.value] rest

/-! ## Worker file production (`worker.py`) -/

/-- File-system effects a task execution performs, in program order:
`write p c` is opening `p` for writing and writing the full content `c`
(`open(p, "w")` truncates, so a later write to `p` replaces the content);
`rename src dst` is `os.rename`. -/
inductive FsEvent where
  | write (path : String) (content : String)
  | rename (src : String) (dst : String)
deriving DecidableEq, Repr

/-- Lower-case hex digit, as produced by Python's `json` escapes. -/
def hexDigit (n : Nat) : Char :=
  if n < 10 then Char.ofNat (48 + n) else Char.ofNat (87 + n)

/-- Four lower-case hex digits. -/
def hex4 (n : Nat) : String :=
  String.mk [hexDigit (n / 4096 % 16), hexDigit (n / 256 % 16),
    hexDigit (n / 16 % 16), hexDigit (n % 16)]

/-- `\uXXXX` escape of a code point, with a surrogate pair beyond U+FFFF,
as Python's `json.dump` (default `ensure_ascii=True`) produces. -/
def uescape (n : Nat) : String :=
  if n < 0x10000 then "\\u" ++ hex4 n
  else
    "\\u" ++ hex4 (0xD800 + (n - 0x10000) / 1024) ++
    "\\u" ++ hex4 (0xDC00 + (n - 0x10000) % 1024)

/-- Escape one character inside a JSON string literal the way Python's
`json.dump` does with its defaults. -/
def jsonEscapeChar (c : Char) : String :=
  if c = '"' then "\\\""
  else if c = '\\' then "\\\\"
  else if c = '\n' then "\\n"
  else if c = '\r' then "\\r"
  else if c = '\t' then "\\t"
  else if c.toNat = 8 then "\\b"
  else if c.toNat = 12 then "\\f"
  else if c.toNat < 0x20 || c.toNat > 0x7E then uescape c.toNat
  else String.singleton c

/-- A JSON string literal for `s`, per Python `json.dump` defaults. -/
def jsonString (s : String) : String :=
  "\"" ++ String.join (s.data.map jsonEscapeChar) ++ "\""

/-- `json.dump(kv.to_dict(), f)` output for one KeyValue: a JSON object
with the two string fields, default separators. -/
def jsonEncodeKV (kv : KeyValue) : String :=
  "\x7b\"key\": " ++ jsonString kv.key ++ ", \"value\": " ++ jsonString kv.value ++ "\x7d"

/-- `write_key_values_to_file` content: one JSON object per line, each
line terminated by a newline.  The empty list produces the empty string
(a zero-byte file). -/
def write_key_values_content (key_values : List KeyValue) : String :=
  String.join (key_values.map (fun kv => jsonEncodeKV kv ++ "\n"))

/-- Bucket `j` of the map output: the source appends each kv to bucket
`ihash(kv.key) % task.n_reduce` in input order, so bucket `j` is the
subsequence of `key_values` hashing to `j`. -/
def mapBucket (h : String → Nat) (n_reduce : Nat) (key_values : List KeyValue)
    (j : Nat) : List KeyValue :=
  key_values.filter (fun kv => decide (ihash h kv.key % n_reduce = j))

/-- `Worker._execute_map_task`: read the input file (its decoded contents
are the `contents` argument), run the user map function (`Except` models a
raised exception, which the surrounding `try` turns into `False`),
partition, then for each `j` write bucket `j` to `mr-{m}-{j}.tmp` and
rename it to `mr-{m}-{j}`.  Returns the success flag and the file-system
effects in program order. -/
def execute_map_task (app_map : String → String → Except String (List KeyValue))
    (h : String → Nat) (contents : String) (task : Task) : Bool × List FsEvent :=
  match app_map (task.input_files.headD "") contents with
  | .error _ => (false, [])
  | .ok key_values =>
    (true, (List.range task.n_reduce.toNat).flatMap (fun j =>
      let filename := intermediate_filename task.map_task_id (j : Int)
      [FsEvent.write (filename ++ ".tmp")
        (write_key_values_content (mapBucket h task.n_reduce.toNat key_values j)),
       FsEvent.rename (filename ++ ".tmp") filename]))

/-- The combined key/value list a reduce task reads: the shared directory
is modelled as an association of present paths to their parsed KeyValue
sequences; `os.path.exists` is membership and a missing path is skipped. -/
def reduceInputKVs (fs : List (String × List KeyValue)) (task : Task) : List KeyValue :=
  task.input_files.flatMap (fun f =>
    match fs.find? (fun p => decide (p.1 = f)) with
    | some p => p.2
    | none => [])

/-- The reduce output loop: fold the groups, calling the user reduce
function and appending `"{key} {result}\n"`; an exception stops the loop
with the content written so far (the file stays partially written). -/
def reduceGroupsAcc (app_reduce : String → List String → Except String String) :
    List (String × List String) → String → String × Option String
  | [], acc => (acc, none)
  | (k, vs) :: rest, acc =>
    match app_reduce k vs with
    | .ok r => reduceGroupsAcc app_reduce rest (acc ++ k ++ " " ++ r ++ "\n")
    | .error e => (acc, some e)

/-- `Worker._execute_reduce_task`: read all existing inputs; if the
combined list is empty, `open(task.output_file, "w")` directly creates the
empty output (no temp file, no rename) and the task succeeds.  Otherwise
sort, group, write `{output_file}.tmp` through the user reduce function,
and atomically rename it onto the output; an exception leaves the partial
temp file and fails the task. -/
def execute_reduce_task (app_reduce : String → List String → Except String String)
    (fs : List (String × List KeyValue)) (task : Task) : Bool × List FsEvent :=
  let all_key_values := reduceInputKVs fs task
  if all_key_values.isEmpty then
    (true, [FsEvent.write task.output_file ""])
  else
    let grouped := group_by_key (sort_key_values all_key_values)
    match reduceGroupsAcc app_reduce grouped "" with
    | (content, none) =>
      (true, [FsEvent.write (task.output_file ++ ".tmp") content,
        FsEvent.rename (task.output_file ++ ".tmp") task.output_file])
    | (content, some _) =>
      (false, [FsEvent.write (task.output_file ++ ".tmp") content])

/-- `Worker._execute_task`: dispatch on the task type; a WAIT or EXIT task
reaching it is "Unknown task type" and returns `False`. -/
def execute_task (app_map : String → String → Except String (List KeyValue))
    (app_reduce : String → List String → Except String String)
    (h : String → Nat) (fs : List (String × List KeyValue))
    (contents : String) (task : Task) : Bool × List FsEvent :=
  match task.task_type with
  | .map => execute_map_task app_map h contents task
  | .reduce => execute_reduce_task app_reduce fs task
  | _ => (false, [])

/-- The `complete_task` RPC call a worker issues, with the four named
arguments of `Worker._report_completion`. -/
structure CompletionCall where
  worker_id : String
  task_id : Int
  success : Bool
  error_message : String
deriving DecidableEq, Repr

/-- The completion report the worker main loop sends after executing a
task: `Worker.run` calls `self._report_completion(task.task_id, success)`,
so the `error_message` parameter keeps its default `""` — the raised
error's text is only printed locally, never sent. -/
def worker_report (worker_id : String)
    (app_map : String → String → Except String (List KeyValue))
    (app_reduce : String → List String → Except String String)
    (h : String → Nat) (fs : List (String × List KeyValue))
    (contents : String) (task : Task) : CompletionCall :=
  { worker_id := worker_id
    task_id := task.task_id
    success := (execute_task app_map app_reduce h fs contents task).1
    error_message := "" }

/-! ## Coordinator state machine (`coordinator.py`) -/

/-- `TaskInfo` dataclass: a task plus its execution state.  `start_time`
and `completion_time` are wall-clock instants, modelled as `Nat`. -/
structure TaskInfo where
  task : Task
  status : TaskStatus := .idle
  worker_id : Option String := none
  start_time : Option Nat := none
  completion_time : Option Nat := none
deriving DecidableEq, Repr

/-- A Python dict `task_id → TaskInfo` in insertion order, as an
association list (Python dicts preserve insertion order, which fixes the
iteration order of `.values()`). -/
abbrev TaskDictMap : Type := List (Int × TaskInfo)

/-- `task_id in d` / `d[task_id]`: first (and, with unique keys, only)
binding of the id. -/
def dictLookup (d : TaskDictMap) (k : Int) : Option TaskInfo :=
  match (d : List (Int × TaskInfo)).find? (fun p => decide (p.1 = k)) with
  | some p => some p.2
  | none => none

/-- In-place mutation of the `TaskInfo` bound to `k` (Python mutates the
object; every binding of `k` is rewritten, which with unique keys is the
one binding). -/
def dictUpdate (d : TaskDictMap) (k : Int) (f : TaskInfo → TaskInfo) : TaskDictMap :=
  (d : List (Int × TaskInfo)).map (fun p => if p.1 = k then (p.1, f p.2) else p)

/-- Coordinator job state: the two task tables, the worker set and the two
phase flags (`rpc` plumbing and `next_task_id` carry no claim content). -/
structure Coordinator where
  files : List String
  n_reduce : Nat
  map_tasks : TaskDictMap
  reduce_tasks : TaskDictMap
  active_workers : List String
  map_phase_complete : Bool
  all_tasks_complete : Bool
deriving DecidableEq, Repr

/-- The MAP `Task` the coordinator builds for input file `i`. -/
def makeMapTask (i : Nat) (filename : String) (n_reduce : Nat) : Task :=
  { task_id := (i : Int), task_type := .map, input_files := [filename],
    output_file := "", n_reduce := (n_reduce : Int), map_task_id := (i : Int) }

/-- The REDUCE `Task` the coordinator builds for partition `i` given `m`
input files (task id `m + i`). -/
def makeReduceTask (m : Nat) (i : Nat) (n_reduce : Nat) : Task :=
  { task_id := ((m + i : Nat) : Int), task_type := .reduce,
    input_files := (List.range m).map (fun map_id => intermediate_filename (map_id : Int) (i : Int)),
    output_file := output_filename (i : Int), n_reduce := (n_reduce : Int),
    reduce_task_id := (i : Int) }

/-- `Coordinator._create_map_tasks`: one MAP task per input file, task ids
`0..M-1`, `map_task_id = i`, all IDLE. -/
def createMapTasks (files : List String) (n_reduce : Nat) : TaskDictMap :=
  files.enum.map (fun p => ((p.1 : Int), { task := makeMapTask p.1 p.2 n_reduce }))

/-- `Coordinator._create_reduce_tasks`: one REDUCE task per partition,
task ids `M..M+R-1`, inputs `mr-0-i … mr-(M-1)-i`, output `mr-out-i`. -/
def createReduceTasks (m : Nat) (n_reduce : Nat) : TaskDictMap :=
  (List.range n_reduce).map (fun i =>
    (((m + i : Nat) : Int), { task := makeReduceTask m i n_reduce }))

/-- `Coordinator.__init__` state (RPC startup and the monitor thread are
modelled as explicit operations). -/
def Coordinator.init (files : List String) (n_reduce : Nat) : Coordinator :=
  { files := files
    n_reduce := n_reduce
    map_tasks := createMapTasks files n_reduce
    reduce_tasks := createReduceTasks files.length n_reduce
    active_workers := []
    map_phase_complete := false
    all_tasks_complete := false }

/-- `Coordinator._get_available_task`: during the map phase scan only
`map_tasks` for the first IDLE one; afterwards only `reduce_tasks`. -/
def getAvailableTask (c : Coordinator) : Option Task :=
  if !c.map_phase_complete then
    match (c.map_tasks : List (Int × TaskInfo)).find? (fun p => decide (p.2.status = .idle)) with
    | some p => some p.2.task
    | none => none
  else
    match (c.reduce_tasks : List (Int × TaskInfo)).find? (fun p => decide (p.2.status = .idle)) with
    | some p => some p.2.task
    | none => none

/-- Python `set.add` on the worker set (modelled keeping first-add order). -/
def addWorker (ws : List String) (w : String) : List String :=
  if w ∈ ws then ws else ws ++ [w]

/-- First block of `Coordinator._check_phase_completion`: set
`map_phase_complete` when it is not yet set and all map tasks are
COMPLETED. -/
def setMapComplete (c : Coordinator) : Coordinator :=
  if !c.map_phase_complete &&
      (c.map_tasks : List (Int × TaskInfo)).all (fun p => decide (p.2.status = .completed))
  then { c with map_phase_complete := true }
  else c

/-- Second block of `Coordinator._check_phase_completion`: set
`all_tasks_complete` when the map phase is complete and all reduce tasks
are COMPLETED. -/
def setAllComplete (c : Coordinator) : Coordinator :=
  if c.map_phase_complete &&
      (c.reduce_tasks : List (Int × TaskInfo)).all (fun p => decide (p.2.status = .completed))
  then { c with all_tasks_complete := true }
  else c

/-- `Coordinator._check_phase_completion`: the two blocks in sequence.
Flags are only ever set to `True`. -/
def checkPhaseCompletion (c : Coordinator) : Coordinator :=
  setAllComplete (setMapComplete c)

/-- The WAIT / EXIT control reply task: `task_id = -1`, no files, only
`n_reduce` meaningful. -/
def controlTask (tt : TaskType) (n_reduce : Nat) : Task :=
  { task_id := -1, task_type := tt, input_files := [],
    output_file := "", n_reduce := (n_reduce : Int) }

/-- Record the requesting worker in the active-worker set. -/
def withWorker (c : Coordinator) (worker_id : String) : Coordinator :=
  { c with active_workers := addWorker c.active_workers worker_id }

/-- Lease assignment: IN_PROGRESS, this worker, `start_time = now`. -/
def assignWorker (worker_id : String) (now : Nat) (ti : TaskInfo) : TaskInfo :=
  { ti with status := .in_progress, worker_id := some worker_id, start_time := some now }

/-- Mark the found task assigned in its table (keyed by its `task_id`,
chosen by its `task_type`, exactly as the source indexes
`self.map_tasks[task.task_id]` / `self.reduce_tasks[task.task_id]`). -/
def assignTask (c : Coordinator) (worker_id : String) (now : Nat) (task : Task) : Coordinator :=
  if task.task_type = .map then
    { c with map_tasks := dictUpdate c.map_tasks task.task_id (assignWorker worker_id now) }
  else
    { c with reduce_tasks := dictUpdate c.reduce_tasks task.task_id (assignWorker worker_id now) }

/-- `Coordinator._handle_task_request`: record the worker, then either
EXIT (job done), WAIT (nothing idle), or assign the found idle task —
marking it IN_PROGRESS with this worker's lease and `start_time = now`.
Returns the new state and the `Task.to_dict` wire reply. -/
def handleTaskRequest (c : Coordinator) (worker_id : String) (now : Nat) :
    Coordinator × TaskDict :=
  match getAvailableTask (withWorker c worker_id) with
  | none =>
    if (withWorker c worker_id).all_tasks_complete then
      (withWorker c worker_id, (controlTask .exit c.n_reduce).to_dict)
    else
      (withWorker c worker_id, (controlTask .wait c.n_reduce).to_dict)
  | some task =>
    (assignTask (withWorker c worker_id) worker_id now task, task.to_dict)

/-- The `complete_task` reply dict. -/
structure CompletionReply where
  acknowledged : Bool
  error : Option String := none
deriving DecidableEq, Repr

/-- The per-task effect of a completion report: on `success=True` set
COMPLETED and `completion_time=now`; on `success=False` reset to IDLE and
clear the lease.  Unconditional in both directions — the source checks
neither the current status nor the lease holder. -/
def completionUpdate (success : Bool) (now : Nat) (ti : TaskInfo) : TaskInfo :=
  if success then { ti with status := .completed, completion_time := some now }
  else { ti with status := .idle, worker_id := none, start_time := none }

/-- After a success the source checks phase completion; after a failure it
does not. -/
def maybeCheckPhase (success : Bool) (c : Coordinator) : Coordinator :=
  if success then checkPhaseCompletion c else c

/-- `Coordinator._handle_task_completion`: look the id up in `map_tasks`
then `reduce_tasks` (unknown → not acknowledged); apply the unconditional
per-task effect; check phase completion only after a success.
`worker_id` and `error_message` are only logged. -/
def handleTaskCompletion (c : Coordinator) (worker_id : String) (task_id : Int)
    (success : Bool) (error_message : String) (now : Nat) :
    Coordinator × CompletionReply :=
  if (dictLookup c.map_tasks task_id).isSome then
    (maybeCheckPhase success
      { c with map_tasks := dictUpdate c.map_tasks task_id (completionUpdate success now) },
     { acknowledged := true })
  else if (dictLookup c.reduce_tasks task_id).isSome then
    (maybeCheckPhase success
      { c with reduce_tasks := dictUpdate c.reduce_tasks task_id (completionUpdate success now) },
     { acknowledged := true })
  else
    (c, { acknowledged := false, error := some "Task not found" })

/-- Pointwise update of every value of a task dict (keys unchanged). -/
def dictMapVals (d : TaskDictMap) (g : TaskInfo → TaskInfo) : TaskDictMap :=
  d.map (fun p => (p.1, g p.2))

/-- The monitor's per-task check: reset an IN_PROGRESS task whose lease
(`start_time`) is more than 10 seconds old. -/
def resetIfExpired (now : Nat) (ti : TaskInfo) : TaskInfo :=
  if ti.status = .in_progress ∧ ti.start_time.isSome ∧
      now - ti.start_time.getD 0 > 10 then
    { ti with status := .idle, worker_id := none, start_time := none }
  else ti

/-- One pass of `Coordinator._monitor_tasks` under the lock at time `now`:
exit if the job is done, else reset every IN_PROGRESS task of the active
phase whose lease is older than 10 seconds. -/
def monitorStep (c : Coordinator) (now : Nat) : Coordinator :=
  if c.all_tasks_complete then c
  else if !c.map_phase_complete then
    { c with map_tasks := dictMapVals c.map_tasks (resetIfExpired now) }
  else
    { c with reduce_tasks := dictMapVals c.reduce_tasks (resetIfExpired now) }

/-- A coordinator operation: the two RPCs and a monitor pass, each with
the wall-clock instant at which it runs. -/
inductive Op where
  | request (worker_id : String) (now : Nat)
  | complete (worker_id : String) (task_id : Int) (success : Bool)
      (error_message : String) (now : Nat)
  | monitor (now : Nat)
deriving DecidableEq, Repr

/-- State transition of one operation. -/
def step (c : Coordinator) : Op → Coordinator
  | .request w t => (handleTaskRequest c w t).1
  | .complete w id s e t => (handleTaskCompletion c w id s e t).1
  | .monitor t => monitorStep c t

/-- A sequence of operations applied in order. -/
def run (c : Coordinator) (ops : List Op) : Coordinator :=
  ops.foldl step c

/-- The source's task lookup: `map_tasks` first, then `reduce_tasks`. -/
def Coordinator.lookupTask (c : Coordinator) (id : Int) : Option TaskInfo :=
  match dictLookup c.map_tasks id with
  | some ti => some ti
  | none => dictLookup c.reduce_tasks id

/-- Status of a known task id. -/
def statusOf (c : Coordinator) (id : Int) : Option TaskStatus :=
  (c.lookupTask id).map TaskInfo.status

/-- A concrete MAP task (as the coordinator builds for input file "in0"
with `n_reduce = 2`), used to instantiate theorems. -/
def sampleMapTask : Task :=
  { task_id := 0, task_type := .map, input_files := ["in0"],
    output_file := "", n_reduce := 2, map_task_id := 0 }

/-- A concrete REDUCE task (as the coordinator builds for one input file
and `n_reduce = 1`), used to instantiate theorems. -/
def sampleReduceTask : Task :=
  { task_id := 1, task_type := .reduce, input_files := ["mr-0-0"],
    output_file := "mr-out-0", n_reduce := 1, reduce_task_id := 0 }

/-- Well-formedness of the coordinator state, established at construction
and preserved by every operation: task-table keys are duplicate-free, each
entry's task records its own key as `task_id` and its table's kind as
`task_type`, and a finished job implies a finished map phase. -/
def WF (c : Coordinator) : Prop :=
  (c.map_tasks.map Prod.fst).Nodup ∧
  (c.reduce_tasks.map Prod.fst).Nodup ∧
  (∀ p ∈ c.map_tasks, p.2.task.task_type = .map ∧ p.2.task.task_id = p.1) ∧
  (∀ p ∈ c.reduce_tasks, p.2.task.task_type = .reduce ∧ p.2.task.task_id = p.1) ∧
  (c.all_tasks_complete = true → c.map_phase_complete = true)

instance (c : Coordinator) : Decidable (WF c) := by
  unfold WF
  infer_instance

/-- A finished-job coordinator state (both phase flags set), used to
instantiate the monotonicity theorem. -/
def doneState : Coordinator :=
  { Coordinator.init ["f0"] 1 with
    map_phase_complete := true, all_tasks_complete := true }

/-! ## Theorems -/

/-! ### Task-dict lemmas -/

theorem dictUpdate_keys (d : TaskDictMap) (k : Int) (f : TaskInfo → TaskInfo) :
    (dictUpdate d k f).map Prod.fst = d.map Prod.fst := by
  induction d with
  | nil => rfl
  | cons p d ih =>
    simp only [dictUpdate, List.map_cons] at ih ⊢
    by_cases hp : p.1 = k
    · simp [hp, ih]
    · simp [hp, ih]

theorem dictMapVals_keys (d : TaskDictMap) (g : TaskInfo → TaskInfo) :
    (dictMapVals d g).map Prod.fst = d.map Prod.fst := by
  induction d with
  | nil => rfl
  | cons p d ih => simp only [dictMapVals, List.map_cons] at ih ⊢; simp [ih]

theorem dictLookup_cons (p : Int × TaskInfo) (d : TaskDictMap) (k : Int) :
    dictLookup (p :: d) k = if p.1 = k then some p.2 else dictLookup d k := by
  by_cases hp : p.1 = k
  · rw [if_pos hp]
    unfold dictLookup
    rw [List.find?_cons_of_pos _ (by simp [hp])]
  · rw [if_neg hp]
    unfold dictLookup
    rw [List.find?_cons_of_neg _ (by simp [hp])]

theorem dictLookup_update_self (d : TaskDictMap) (k : Int) (f : TaskInfo → TaskInfo) :
    dictLookup (dictUpdate d k f) k = (dictLookup d k).map f := by
  induction d with
  | nil => rfl
  | cons p d ih =>
    show dictLookup ((if p.1 = k then (p.1, f p.2) else p) :: dictUpdate d k f) k = _
    by_cases hp : p.1 = k
    · rw [if_pos hp, dictLookup_cons, dictLookup_cons]
      simp [hp]
    · rw [if_neg hp, dictLookup_cons, dictLookup_cons, if_neg hp, if_neg hp]
      exact ih

theorem dictLookup_update_ne (d : TaskDictMap) (k k2 : Int) (f : TaskInfo → TaskInfo)
    (hne : k2 ≠ k) :
    dictLookup (dictUpdate d k f) k2 = dictLookup d k2 := by
  induction d with
  | nil => rfl
  | cons p d ih =>
    show dictLookup ((if p.1 = k then (p.1, f p.2) else p) :: dictUpdate d k f) k2 = _
    by_cases hp : p.1 = k
    · have hp2 : ¬p.1 = k2 := fun hc => hne (hc.symm.trans hp)
      rw [if_pos hp, dictLookup_cons, dictLookup_cons, if_neg hp2]
      have : ¬(p.1, f p.2).1 = k2 := hp2
      rw [if_neg this]
      exact ih
    · rw [if_neg hp, dictLookup_cons, dictLookup_cons]
      by_cases hq : p.1 = k2
      · rw [if_pos hq, if_pos hq]
      · rw [if_neg hq, if_neg hq]
        exact ih

theorem dictLookup_mapVals (d : TaskDictMap) (g : TaskInfo → TaskInfo) (k : Int) :
    dictLookup (dictMapVals d g) k = (dictLookup d k).map g := by
  induction d with
  | nil => rfl
  | cons p d ih =>
    show dictLookup ((p.1, g p.2) :: dictMapVals d g) k = _
    rw [dictLookup_cons, dictLookup_cons]
    by_cases hp : p.1 = k
    · rw [if_pos hp]
      have : (p.1, g p.2).1 = k := hp
      rw [if_pos this]
      rfl
    · rw [if_neg hp]
      have : ¬(p.1, g p.2).1 = k := hp
      rw [if_neg this]
      exact ih

theorem dictLookup_of_mem_nodup (d : TaskDictMap) (p : Int × TaskInfo)
    (hmem : p ∈ d) (hnd : (d.map Prod.fst).Nodup) :
    dictLookup d p.1 = some p.2 := by
  induction d with
  | nil => cases hmem
  | cons q d ih =>
    rw [List.map_cons, List.nodup_cons] at hnd
    rcases List.mem_cons.mp hmem with hq | hd
    · subst hq
      rw [dictLookup_cons, if_pos rfl]
    · have hq1 : ¬q.1 = p.1 := by
        intro hc
        exact hnd.1 (hc ▸ List.mem_map.mpr ⟨p, hd, rfl⟩)
      rw [dictLookup_cons, if_neg hq1]
      exact ih hd hnd.2

theorem dictUpdate_mem (d : TaskDictMap) (k : Int) (f : TaskInfo → TaskInfo)
    (q : Int × TaskInfo) (hq : q ∈ dictUpdate d k f) :
    ∃ p ∈ d, q = p ∨ q = (p.1, f p.2) := by
  rcases List.mem_map.mp hq with ⟨p, hp, hg⟩
  refine ⟨p, hp, ?_⟩
  by_cases h1 : p.1 = k
  · right; rw [← hg]; simp [h1]
  · left; rw [← hg]; simp [h1]

theorem dictMapVals_mem (d : TaskDictMap) (g : TaskInfo → TaskInfo)
    (q : Int × TaskInfo) (hq : q ∈ dictMapVals d g) :
    ∃ p ∈ d, q = (p.1, g p.2) := by
  rcases List.mem_map.mp hq with ⟨p, hp, hg⟩
  exact ⟨p, hp, hg.symm⟩

/-! ### Phase-completion and flag lemmas -/

theorem checkPhase_map_tasks (c : Coordinator) :
    (checkPhaseCompletion c).map_tasks = c.map_tasks := by
  unfold checkPhaseCompletion setAllComplete setMapComplete
  split_ifs <;> rfl

theorem checkPhase_reduce_tasks (c : Coordinator) :
    (checkPhaseCompletion c).reduce_tasks = c.reduce_tasks := by
  unfold checkPhaseCompletion setAllComplete setMapComplete
  split_ifs <;> rfl

theorem checkPhase_mpc_mono (c : Coordinator) (h : c.map_phase_complete = true) :
    (checkPhaseCompletion c).map_phase_complete = true := by
  unfold checkPhaseCompletion setAllComplete setMapComplete
  split_ifs <;> simp_all

theorem checkPhase_atc_mono (c : Coordinator) (h : c.all_tasks_complete = true) :
    (checkPhaseCompletion c).all_tasks_complete = true := by
  unfold checkPhaseCompletion setAllComplete setMapComplete
  split_ifs <;> simp_all

theorem checkPhase_atc_imp_mpc (c : Coordinator)
    (h : c.all_tasks_complete = true → c.map_phase_complete = true) :
    (checkPhaseCompletion c).all_tasks_complete = true →
      (checkPhaseCompletion c).map_phase_complete = true := by
  unfold checkPhaseCompletion setAllComplete setMapComplete
  split_ifs <;> simp_all

theorem handleTaskRequest_flags (c : Coordinator) (w : String) (t : Nat) :
    (handleTaskRequest c w t).1.map_phase_complete = c.map_phase_complete ∧
    (handleTaskRequest c w t).1.all_tasks_complete = c.all_tasks_complete := by
  unfold handleTaskRequest assignTask withWorker
  split
  · split_ifs <;> exact ⟨rfl, rfl⟩
  · split_ifs <;> exact ⟨rfl, rfl⟩

theorem handleTaskCompletion_mpc_mono (c : Coordinator) (w : String) (id : Int)
    (s : Bool) (e : String) (t : Nat) (h : c.map_phase_complete = true) :
    (handleTaskCompletion c w id s e t).1.map_phase_complete = true := by
  unfold handleTaskCompletion maybeCheckPhase
  split_ifs <;> first
    | exact h
    | exact checkPhase_mpc_mono _ h

theorem handleTaskCompletion_atc_mono (c : Coordinator) (w : String) (id : Int)
    (s : Bool) (e : String) (t : Nat) (h : c.all_tasks_complete = true) :
    (handleTaskCompletion c w id s e t).1.all_tasks_complete = true := by
  unfold handleTaskCompletion maybeCheckPhase
  split_ifs <;> first
    | exact h
    | exact checkPhase_atc_mono _ h

theorem monitorStep_flags (c : Coordinator) (t : Nat) :
    (monitorStep c t).map_phase_complete = c.map_phase_complete ∧
    (monitorStep c t).all_tasks_complete = c.all_tasks_complete := by
  unfold monitorStep
  split_ifs <;> exact ⟨rfl, rfl⟩

/-! ### Well-formedness: established at init, preserved by steps -/

theorem assignWorker_task (w : String) (t : Nat) (ti : TaskInfo) :
    (assignWorker w t ti).task = ti.task := rfl

theorem completionUpdate_task (s : Bool) (t : Nat) (ti : TaskInfo) :
    (completionUpdate s t ti).task = ti.task := by
  unfold completionUpdate
  split <;> rfl

theorem resetIfExpired_task (t : Nat) (ti : TaskInfo) :
    (resetIfExpired t ti).task = ti.task := by
  unfold resetIfExpired
  split <;> rfl

theorem wf_init (files : List String) (n_reduce : Nat) :
    WF (Coordinator.init files n_reduce) := by
  refine ⟨?_, ?_, ?_, ?_, ?_⟩
  · show ((createMapTasks files n_reduce).map Prod.fst).Nodup
    have hk1 : (createMapTasks files n_reduce).map Prod.fst
        = files.enum.map (fun p => ((p.1 : Nat) : Int)) := by
      unfold createMapTasks
      rw [List.map_map]
      rfl
    have hk2 : files.enum.map (fun p => ((p.1 : Nat) : Int))
        = (files.enum.map Prod.fst).map (fun n : Nat => (n : Int)) := by
      rw [List.map_map]
      rfl
    rw [hk1, hk2, List.enum_map_fst]
    exact (List.nodup_range _).map (fun a b h => by exact_mod_cast h)
  · show ((createReduceTasks files.length n_reduce).map Prod.fst).Nodup
    have hkeys : (createReduceTasks files.length n_reduce).map Prod.fst
        = (List.range n_reduce).map (fun i => ((files.length + i : Nat) : Int)) := by
      unfold createReduceTasks
      rw [List.map_map]
      rfl
    rw [hkeys]
    refine (List.nodup_range _).map (fun a b h => ?_)
    have : files.length + a = files.length + b := by exact_mod_cast h
    omega
  · intro p hp
    rcases List.mem_map.mp hp with ⟨q, _, hq⟩
    rw [← hq]
    exact ⟨rfl, rfl⟩
  · intro p hp
    rcases List.mem_map.mp hp with ⟨q, _, hq⟩
    rw [← hq]
    exact ⟨rfl, rfl⟩
  · intro h
    exact absurd h (by simp [Coordinator.init])

theorem wf_checkPhase (c : Coordinator) (hwf : WF c) :
    WF (checkPhaseCompletion c) := by
  obtain ⟨h1, h2, h3, h4, h5⟩ := hwf
  refine ⟨?_, ?_, ?_, ?_, ?_⟩
  · rw [checkPhase_map_tasks]; exact h1
  · rw [checkPhase_reduce_tasks]; exact h2
  · rw [checkPhase_map_tasks]; exact h3
  · rw [checkPhase_reduce_tasks]; exact h4
  · exact checkPhase_atc_imp_mpc c h5

theorem wf_update_map (c : Coordinator) (k : Int) (f : TaskInfo → TaskInfo)
    (hf : ∀ ti, (f ti).task = ti.task) (hwf : WF c) :
    WF { c with map_tasks := dictUpdate c.map_tasks k f } := by
  obtain ⟨h1, h2, h3, h4, h5⟩ := hwf
  refine ⟨?_, h2, ?_, h4, h5⟩
  · show ((dictUpdate c.map_tasks k f).map Prod.fst).Nodup
    rw [dictUpdate_keys]
    exact h1
  · intro p hp
    rcases dictUpdate_mem c.map_tasks k f p hp with ⟨q, hq, hqe | hqe⟩
    · exact hqe ▸ h3 q hq
    · rw [hqe]
      refine ⟨?_, ?_⟩
      · show (f q.2).task.task_type = .map
        rw [hf q.2]
        exact (h3 q hq).1
      · show (f q.2).task.task_id = q.1
        rw [hf q.2]
        exact (h3 q hq).2

theorem wf_update_reduce (c : Coordinator) (k : Int) (f : TaskInfo → TaskInfo)
    (hf : ∀ ti, (f ti).task = ti.task) (hwf : WF c) :
    WF { c with reduce_tasks := dictUpdate c.reduce_tasks k f } := by
  obtain ⟨h1, h2, h3, h4, h5⟩ := hwf
  refine ⟨h1, ?_, h3, ?_, h5⟩
  · show ((dictUpdate c.reduce_tasks k f).map Prod.fst).Nodup
    rw [dictUpdate_keys]
    exact h2
  · intro p hp
    rcases dictUpdate_mem c.reduce_tasks k f p hp with ⟨q, hq, hqe | hqe⟩
    · exact hqe ▸ h4 q hq
    · rw [hqe]
      refine ⟨?_, ?_⟩
      · show (f q.2).task.task_type = .reduce
        rw [hf q.2]
        exact (h4 q hq).1
      · show (f q.2).task.task_id = q.1
        rw [hf q.2]
        exact (h4 q hq).2

theorem wf_mapVals_map (c : Coordinator) (g : TaskInfo → TaskInfo)
    (hg : ∀ ti, (g ti).task = ti.task) (hwf : WF c) :
    WF { c with map_tasks := dictMapVals c.map_tasks g } := by
  obtain ⟨h1, h2, h3, h4, h5⟩ := hwf
  refine ⟨?_, h2, ?_, h4, h5⟩
  · show ((dictMapVals c.map_tasks g).map Prod.fst).Nodup
    rw [dictMapVals_keys]
    exact h1
  · intro p hp
    rcases dictMapVals_mem c.map_tasks g p hp with ⟨q, hq, hqe⟩
    rw [hqe]
    refine ⟨?_, ?_⟩
    · show (g q.2).task.task_type = .map
      rw [hg q.2]
      exact (h3 q hq).1
    · show (g q.2).task.task_id = q.1
      rw [hg q.2]
      exact (h3 q hq).2

theorem wf_mapVals_reduce (c : Coordinator) (g : TaskInfo → TaskInfo)
    (hg : ∀ ti, (g ti).task = ti.task) (hwf : WF c) :
    WF { c with reduce_tasks := dictMapVals c.reduce_tasks g } := by
  obtain ⟨h1, h2, h3, h4, h5⟩ := hwf
  refine ⟨h1, ?_, h3, ?_, h5⟩
  · show ((dictMapVals c.reduce_tasks g).map Prod.fst).Nodup
    rw [dictMapVals_keys]
    exact h2
  · intro p hp
    rcases dictMapVals_mem c.reduce_tasks g p hp with ⟨q, hq, hqe⟩
    rw [hqe]
    refine ⟨?_, ?_⟩
    · show (g q.2).task.task_type = .reduce
      rw [hg q.2]
      exact (h4 q hq).1
    · show (g q.2).task.task_id = q.1
      rw [hg q.2]
      exact (h4 q hq).2

theorem wf_withWorker (c : Coordinator) (w : String) (hwf : WF c) :
    WF (withWorker c w) := hwf

theorem wf_step (c : Coordinator) (op : Op) (hwf : WF c) : WF (step c op) := by
  cases op with
  | request w t =>
    show WF (handleTaskRequest c w t).1
    unfold handleTaskRequest
    cases hg : getAvailableTask (withWorker c w) with
    | none =>
      split_ifs <;> exact wf_withWorker c w hwf
    | some task =>
      show WF (assignTask (withWorker c w) w t task)
      unfold assignTask
      split_ifs
      · exact wf_update_map _ _ _ (fun ti => rfl) (wf_withWorker c w hwf)
      · exact wf_update_reduce _ _ _ (fun ti => rfl) (wf_withWorker c w hwf)
  | complete w id s e t =>
    show WF (handleTaskCompletion c w id s e t).1
    unfold handleTaskCompletion maybeCheckPhase
    split_ifs <;> first
      | exact wf_checkPhase _ (wf_update_map c id _ (completionUpdate_task s t) hwf)
      | exact wf_update_map c id _ (completionUpdate_task s t) hwf
      | exact wf_checkPhase _ (wf_update_reduce c id _ (completionUpdate_task s t) hwf)
      | exact wf_update_reduce c id _ (completionUpdate_task s t) hwf
      | exact hwf
  | monitor t =>
    show WF (monitorStep c t)
    unfold monitorStep
    split_ifs
    · exact hwf
    · exact wf_mapVals_map c _ (resetIfExpired_task t) hwf
    · exact wf_mapVals_reduce c _ (resetIfExpired_task t) hwf

theorem getAvailableTask_spec (c : Coordinator) (task : Task)
    (hg : getAvailableTask c = some task) :
    (c.map_phase_complete = false ∧
      ∃ p, p ∈ c.map_tasks ∧ p.2.status = .idle ∧ task = p.2.task) ∨
    (c.map_phase_complete = true ∧
      ∃ p, p ∈ c.reduce_tasks ∧ p.2.status = .idle ∧ task = p.2.task) := by
  unfold getAvailableTask at hg
  cases hmp : c.map_phase_complete with
  | false =>
    left
    refine ⟨rfl, ?_⟩
    rw [hmp] at hg
    simp only [Bool.not_false, if_pos] at hg
    cases hfind : (c.map_tasks : List (Int × TaskInfo)).find?
        (fun p => decide (p.2.status = .idle)) with
    | none => rw [hfind] at hg; cases hg
    | some p =>
      rw [hfind] at hg
      refine ⟨p, List.mem_of_find?_eq_some hfind, ?_, ?_⟩
      · have := List.find?_some hfind
        exact of_decide_eq_true this
      · cases hg
        rfl
  | true =>
    right
    refine ⟨rfl, ?_⟩
    rw [hmp] at hg
    simp only [Bool.not_true, Bool.false_eq_true, if_false] at hg
    cases hfind : (c.reduce_tasks : List (Int × TaskInfo)).find?
        (fun p => decide (p.2.status = .idle)) with
    | none => rw [hfind] at hg; cases hg
    | some p =>
      rw [hfind] at hg
      refine ⟨p, List.mem_of_find?_eq_some hfind, ?_, ?_⟩
      · have := List.find?_some hfind
        exact of_decide_eq_true this
      · cases hg
        rfl

theorem step_flags_mono (c : Coordinator) (op : Op) :
    (c.map_phase_complete = true → (step c op).map_phase_complete = true) ∧
    (c.all_tasks_complete = true → (step c op).all_tasks_complete = true) := by
  cases op with
  | request w t =>
    exact ⟨fun h => (handleTaskRequest_flags c w t).1 ▸ h,
      fun h => (handleTaskRequest_flags c w t).2 ▸ h⟩
  | complete w id s e t =>
    exact ⟨fun h => handleTaskCompletion_mpc_mono c w id s e t h,
      fun h => handleTaskCompletion_atc_mono c w id s e t h⟩
  | monitor t =>
    exact ⟨fun h => (monitorStep_flags c t).1 ▸ h,
      fun h => (monitorStep_flags c t).2 ▸ h⟩

theorem insertKV_perm (a : KeyValue) (l : List KeyValue) :
    List.Perm (insertKV a l) (a :: l) := by
  induction l with
  | nil => simp [insertKV]
  | cons b l ih =>
    simp only [insertKV]
    split
    · exact (ih.cons b).trans (List.Perm.swap a b l)
    · exact List.Perm.refl _

theorem sort_key_values_perm (kvs : List KeyValue) :
    List.Perm (sort_key_values kvs) kvs := by
  induction kvs with
  | nil => exact List.Perm.refl _
  | cons x rest ih =>
    exact (insertKV_perm x (sort_key_values rest)).trans (ih.cons x)

theorem insertKV_pairwise (a : KeyValue) (l : List KeyValue)
    (h : l.Pairwise (fun x y => x.key ≤ y.key)) :
    (insertKV a l).Pairwise (fun x y => x.key ≤ y.key) := by
  induction l with
  | nil => simp [insertKV]
  | cons b l ih =>
    rw [List.pairwise_cons] at h
    simp only [insertKV]
    split
    · rename_i hba
      rw [List.pairwise_cons]
      refine ⟨fun x hx => ?_, ih h.2⟩
      rcases List.mem_cons.mp ((insertKV_perm a l).mem_iff.mp hx) with hxa | hxl
      · exact hxa ▸ le_of_lt hba
      · exact h.1 x hxl
    · rename_i hba
      rw [List.pairwise_cons]
      refine ⟨fun x hx => ?_, List.pairwise_cons.mpr h⟩
      rcases List.mem_cons.mp hx with hxb | hxl
      · exact hxb ▸ le_of_not_lt hba
      · exact le_trans (le_of_not_lt hba) (h.1 x hxl)

theorem sort_key_values_pairwise (kvs : List KeyValue) :
    (sort_key_values kvs).Pairwise (fun x y => x.key ≤ y.key) := by
  induction kvs with
  | nil => simp [sort_key_values]
  | cons x rest ih => exact insertKV_pairwise x _ ih

theorem filter_insertKV (k : String) (a : KeyValue) (l : List KeyValue) :
    (insertKV a l).filter (fun kv => decide (kv.key = k)) =
      (if a.key = k then [a] else []) ++ l.filter (fun kv => decide (kv.key = k)) := by
  induction l with
  | nil => by_cases hak : a.key = k <;> simp [insertKV, hak]
  | cons b l ih =>
    simp only [insertKV]
    by_cases hba : b.key < a.key
    · rw [if_pos hba]
      by_cases hbk : b.key = k
      · by_cases hak : a.key = k
        · exact absurd (hak ▸ hbk ▸ hba) (lt_irrefl _)
        · simp [List.filter, hbk, hak, ih]
      · simp [List.filter, hbk, ih]
    · rw [if_neg hba]
      by_cases hak : a.key = k <;> simp [List.filter, hak]

theorem sort_key_values_filter (kvs : List KeyValue) (k : String) :
    (sort_key_values kvs).filter (fun kv => decide (kv.key = k)) =
      kvs.filter (fun kv => decide (kv.key = k)) := by
  induction kvs with
  | nil => rfl
  | cons x rest ih =>
    show (insertKV x (sort_key_values rest)).filter _ = _
    rw [filter_insertKV, ih]
    by_cases hxk : x.key = k <;> simp [List.filter, hxk]

theorem groupGo_fst_mem (t : List KeyValue) (ck : String) (acc : List String) (k : String) :
    k ∈ (groupGo ck acc t).map Prod.fst ↔ (k = ck ∨ k ∈ t.map KeyValue.key) := by
  induction t generalizing ck acc with
  | nil => simp [groupGo]
  | cons kv rest ih =>
    simp only [groupGo]
    by_cases hk : kv.key = ck
    · rw [if_pos hk, ih]
      simp only [List.map_cons, List.mem_cons, hk]
      tauto
    · rw [if_neg hk]
      simp only [List.map_cons, List.mem_cons, ih]

theorem groupGo_fst_pairwise (t : List KeyValue) (ck : String) (acc : List String)
    (h1 : t.Pairwise (fun x y => x.key ≤ y.key))
    (h2 : ∀ x ∈ t, ck ≤ x.key) :
    ((groupGo ck acc t).map Prod.fst).Pairwise (fun a b => a < b) := by
  induction t generalizing ck acc with
  | nil => simp [groupGo]
  | cons kv rest ih =>
    rw [List.pairwise_cons] at h1
    simp only [groupGo]
    by_cases hk : kv.key = ck
    · rw [if_pos hk]
      exact ih ck (acc ++ [kv.value]) h1.2 (fun x hx => hk ▸ h1.1 x hx)
    · rw [if_neg hk]
      have hck : ck < kv.key :=
        lt_of_le_of_ne (h2 kv (List.mem_cons_self kv rest)) (Ne.symm hk)
      simp only [List.map_cons, List.pairwise_cons]
      refine ⟨fun b hb => ?_, ih kv.key [kv.value] h1.2 h1.1⟩
      rcases (groupGo_fst_mem rest kv.key [kv.value] b).mp hb with hbk | hbm
      · exact hbk ▸ hck
      · rcases List.mem_map.mp hbm with ⟨x, hx, hxb⟩
        exact lt_of_lt_of_le hck (hxb ▸ h1.1 x hx)

theorem groupGo_values (t : List KeyValue) (ck : String) (acc : List String)
    (h1 : t.Pairwise (fun x y => x.key ≤ y.key))
    (h2 : ∀ x ∈ t, ck ≤ x.key) :
    ∀ g ∈ groupGo ck acc t,
      g.2 = (if g.1 = ck then acc else []) ++
        (t.filter (fun kv => decide (kv.key = g.1))).map KeyValue.value := by
  induction t generalizing ck acc with
  | nil =>
    intro g hg
    simp only [groupGo, List.mem_singleton] at hg
    subst hg
    simp
  | cons kv rest ih =>
    rw [List.pairwise_cons] at h1
    intro g hg
    simp only [groupGo] at hg
    by_cases hk : kv.key = ck
    · rw [if_pos hk] at hg
      have := ih ck (acc ++ [kv.value]) h1.2 (fun x hx => hk ▸ h1.1 x hx) g hg
      by_cases hgc : g.1 = ck
      · simp only [hgc, if_pos rfl] at this ⊢
        rw [this]
        have hkeep : (fun kv : KeyValue => decide (kv.key = ck)) kv = true := by
          simp [hk]
        simp [List.filter, hk, hgc]
      · simp only [hgc, if_neg hgc] at this ⊢
        rw [this]
        have hdrop : kv.key ≠ g.1 := fun hc => hgc (hc ▸ hk ▸ rfl)
        simp [List.filter, hdrop]
    · rw [if_neg hk] at hg
      have hck : ck < kv.key :=
        lt_of_le_of_ne (h2 kv (List.mem_cons_self kv rest)) (Ne.symm hk)
      rcases List.mem_cons.mp hg with hgf | hgi
      · subst hgf
        simp only [if_pos rfl]
        have hnone : ((kv :: rest).filter (fun x => decide (x.key = ck))) = [] := by
          rw [List.filter_eq_nil_iff]
          intro x hx
          rcases List.mem_cons.mp hx with hxk | hxr
          · subst hxk
            simp [hk]
          · have : ck < x.key := lt_of_lt_of_le hck (h1.1 x hxr)
            simp [ne_of_gt this]
        rw [hnone]
        simp
      · have hg1 : g.1 ≠ ck := by
          have hmem : g.1 ∈ (groupGo kv.key [kv.value] rest).map Prod.fst :=
            List.mem_map.mpr ⟨g, hgi, rfl⟩
          rcases (groupGo_fst_mem rest kv.key [kv.value] g.1).mp hmem with hgk | hgm
          · exact fun hc => absurd (hc ▸ hgk ▸ hck) (lt_irrefl _)
          · rcases List.mem_map.mp hgm with ⟨x, hx, hxg⟩
            have : ck < g.1 := hxg ▸ lt_of_lt_of_le hck (h1.1 x hx)
            exact ne_of_gt this
        have := ih kv.key [kv.value] h1.2 h1.1 g hgi
        rw [if_neg hg1]
        by_cases hgk : g.1 = kv.key
        · simp only [hgk, if_pos rfl] at this
          rw [this]
          simp [List.filter, hgk.symm]
        · have hdrop : kv.key ≠ g.1 := fun hc => hgk hc.symm
          simp only [if_neg hgk] at this
          rw [this]
          simp [List.filter, hdrop]

theorem group_by_key_sorted_values (l : List KeyValue)
    (h1 : l.Pairwise (fun x y => x.key ≤ y.key)) :
    ∀ g ∈ group_by_key l,
      g.2 = (l.filter (fun kv => decide (kv.key = g.1))).map KeyValue.value := by
  cases l with
  | nil => intro g hg; simp [group_by_key] at hg
  | cons kv rest =>
    rw [List.pairwise_cons] at h1
    intro g hg
    have := groupGo_values rest kv.key [kv.value] h1.2 h1.1 g hg
    by_cases hgk : g.1 = kv.key
    · simp only [hgk, if_pos rfl] at this
      rw [this]
      simp [List.filter, hgk.symm]
    · have hdrop : kv.key ≠ g.1 := fun hc => hgk hc.symm
      simp only [if_neg hgk] at this
      rw [this]
      simp [List.filter, hdrop]

theorem group_by_key_sorted_fst_pairwise (l : List KeyValue)
    (h1 : l.Pairwise (fun x y => x.key ≤ y.key)) :
    ((group_by_key l).map Prod.fst).Pairwise (fun a b => a < b) := by
  cases l with
  | nil => simp [group_by_key]
  | cons kv rest =>
    rw [List.pairwise_cons] at h1
    exact groupGo_fst_pairwise rest kv.key [kv.value] h1.2 h1.1

theorem group_by_key_fst_mem (l : List KeyValue) (k : String) :
    k ∈ (group_by_key l).map Prod.fst ↔ k ∈ l.map KeyValue.key := by
  cases l with
  | nil => simp [group_by_key]
  | cons kv rest =>
    rw [show group_by_key (kv :: rest) = groupGo kv.key [kv.value] rest from rfl,
      groupGo_fst_mem]
    simp [List.mem_cons]


theorem TaskType.ofValue_value (tt : TaskType) : TaskType.ofValue tt.value = some tt := by
  cases tt <;> rfl

/-- C10: for every Task value `t` (any task_id, any of the four task kinds,
any input_files, output_file, n_reduce, map_task_id, reduce_task_id),
`Task.from_dict (t.to_dict) = t`: the wire encoding of a task round-trips
exactly, so a worker decodes precisely the task the coordinator assigned. -/
theorem C10_task_roundtrip (t : Task) : Task.from_dict t.to_dict = some t := by
  cases t with
  | mk task_id task_type input_files output_file n_reduce map_task_id reduce_task_id =>
    cases task_type <;> rfl

/-- C3: the claim requires `ihash key` to be the low 31 bits of the 64-bit
FNV-1a of the key's bytes, a fixed function of the key.  The source instead
computes `hash(key) % (2**31 - 1)` with the process-seeded host hash.  Even
granting the source the spec's own stable 64-bit hash as host hash, the
source's reduction (`mod 2^31 - 1`) differs from the claimed low 31 bits
(`mod 2^31`) at the concrete key "a". -/
theorem C3_ihash_divergence : ihash fnv1a64 "a" ≠ ihash_spec "a" := by
  decide

theorem flatMap_range_split {α : Type} (f : Nat → List α) (j n : Nat) (hj : j < n) :
    ∃ pre post, (List.range n).flatMap f = pre ++ f j ++ post := by
  induction n with
  | zero => omega
  | succ m ih =>
    rw [List.range_succ, List.flatMap_append]
    by_cases hjm : j < m
    · obtain ⟨pre, post, hsplit⟩ := ih hjm
      exact ⟨pre, post ++ (List.flatMap [m] f), by rw [hsplit]; simp⟩
    · have hje : j = m := by omega
      subst hje
      exact ⟨(List.range j).flatMap f, [], by simp⟩

/-- C6: for every successful MAP task execution (user map function returns
normally) with map index `m` and partition count `R = task.n_reduce`, and
for every `j < R`, the worker's file-system effect sequence contains, in
order, a write of bucket `j`'s newline-delimited JSON to `mr-{m}-{j}.tmp`
immediately followed by a rename of that temp file to `mr-{m}-{j}`; this
holds for every `j` even when bucket `j` is empty, in which case the
written content is the empty string (a zero-byte file after the rename). -/
theorem C6_map_bucket_files
    (app_map : String → String → Except String (List KeyValue))
    (h : String → Nat) (contents : String) (task : Task)
    (key_values : List KeyValue)
    (hok : app_map (task.input_files.headD "") contents = .ok key_values)
    (j : Nat) (hj : j < task.n_reduce.toNat) :
    (execute_map_task app_map h contents task).1 = true ∧
    (∃ pre post,
      (execute_map_task app_map h contents task).2 =
        pre ++
        [FsEvent.write (intermediate_filename task.map_task_id (j : Int) ++ ".tmp")
          (write_key_values_content (mapBucket h task.n_reduce.toNat key_values j)),
         FsEvent.rename (intermediate_filename task.map_task_id (j : Int) ++ ".tmp")
          (intermediate_filename task.map_task_id (j : Int))] ++ post) ∧
    (mapBucket h task.n_reduce.toNat key_values j = [] →
      write_key_values_content (mapBucket h task.n_reduce.toNat key_values j) = "") := by
  refine ⟨?_, ?_, ?_⟩
  · simp only [execute_map_task, hok]
  · obtain ⟨pre, post, hsplit⟩ := flatMap_range_split
      (fun j =>
        [FsEvent.write (intermediate_filename task.map_task_id (j : Int) ++ ".tmp")
          (write_key_values_content (mapBucket h task.n_reduce.toNat key_values j)),
         FsEvent.rename (intermediate_filename task.map_task_id (j : Int) ++ ".tmp")
          (intermediate_filename task.map_task_id (j : Int))])
      j task.n_reduce.toNat hj
    refine ⟨pre, post, ?_⟩
    simp only [execute_map_task, hok]
    exact hsplit
  · intro hempty
    rw [hempty]
    rfl

theorem C6_map_bucket_files_witness :
    (execute_map_task (fun _ _ => .ok []) (fun _ => 0) "text" sampleMapTask).1 = true ∧
    (∃ pre post,
      (execute_map_task (fun _ _ => .ok []) (fun _ => 0) "text" sampleMapTask).2 =
        pre ++
        [FsEvent.write (intermediate_filename sampleMapTask.map_task_id ((0 : Nat) : Int) ++ ".tmp")
          (write_key_values_content (mapBucket (fun _ => 0) sampleMapTask.n_reduce.toNat [] 0)),
         FsEvent.rename (intermediate_filename sampleMapTask.map_task_id ((0 : Nat) : Int) ++ ".tmp")
          (intermediate_filename sampleMapTask.map_task_id ((0 : Nat) : Int))] ++ post) ∧
    (mapBucket (fun _ => 0) sampleMapTask.n_reduce.toNat [] 0 = [] →
      write_key_values_content (mapBucket (fun _ => 0) sampleMapTask.n_reduce.toNat [] 0) = "") :=
  C6_map_bucket_files (fun _ _ => .ok []) (fun _ => 0) "text" sampleMapTask
    [] rfl 0 (by decide)

/-- C7 fails on the code: for a REDUCE task whose combined input list is
empty, the source executes `open(task.output_file, "w"): pass` — a direct
truncating create of the final output path, with no temporary file and no
rename.  At the concrete reduce task below (its sole input file absent),
the effect trace is exactly one direct write of the output file, contains
no rename at all, and differs from the temp-then-rename trace the claim
requires. -/
theorem C7_counterexample :
    (execute_reduce_task (fun k _ => .ok k) []
      sampleReduceTask) =
      (true, [FsEvent.write "mr-out-0" ""]) ∧
    (∀ e ∈ (execute_reduce_task (fun k _ => .ok k) []
      sampleReduceTask).2,
      ∀ src dst, e ≠ FsEvent.rename src dst) ∧
    (execute_reduce_task (fun k _ => .ok k) []
      sampleReduceTask).2 ≠
      [FsEvent.write ("mr-out-0" ++ ".tmp") "",
       FsEvent.rename ("mr-out-0" ++ ".tmp") "mr-out-0"] := by
  refine ⟨rfl, ?_, by decide⟩
  intro e he src dst
  have : e = FsEvent.write "mr-out-0" "" := by
    simpa [execute_reduce_task, reduceInputKVs] using he
  subst this
  exact fun hc => FsEvent.noConfusion hc

/-- C7 amended: for every REDUCE task execution whose combined key/value
list (from all existing input files) is empty, the worker succeeds and
produces the empty output file by opening the final output path directly
for writing (truncating create) — with no temporary file and no rename —
so the empty case is observably different from the non-empty path, which
writes `{output_file}.tmp` and then renames it onto the output. -/
theorem C7_amended_empty_reduce
    (app_reduce : String → List String → Except String String)
    (fs : List (String × List KeyValue)) (task : Task)
    (hempty : reduceInputKVs fs task = []) :
    execute_reduce_task app_reduce fs task =
      (true, [FsEvent.write task.output_file ""]) := by
  simp [execute_reduce_task, hempty]

theorem C7_amended_empty_reduce_witness :
    execute_reduce_task (fun k _ => Except.ok k) []
      sampleReduceTask =
      (true, [FsEvent.write "mr-out-0" ""]) :=
  C7_amended_empty_reduce (fun k _ => Except.ok k) []
    sampleReduceTask rfl

/-- C8 fails on the code: `Worker.run` reports the outcome with
`self._report_completion(task.task_id, success)`, so `error_message` keeps
its default `""`; the text of the raised error is printed locally and never
sent.  At a MAP task whose user map function raises `boom`, and at a REDUCE
task whose user reduce function raises `boom`, the completion call carries
`success = false` and `error_message = ""`, not the stringified error. -/
theorem C8_error_message_dropped :
    worker_report "w1" (fun _ _ => .error "boom") (fun k _ => .ok k)
      (fun _ => 0) [] "text"
      { task_id := 0, task_type := .map, input_files := ["f0"],
        output_file := "", n_reduce := 1, map_task_id := 0 } =
      { worker_id := "w1", task_id := 0, success := false, error_message := "" } ∧
    worker_report "w1" (fun _ _ => .ok []) (fun _ _ => .error "boom")
      (fun _ => 0) [("mr-0-0", [{ key := "a", value := "1" }])] ""
      sampleReduceTask =
      { worker_id := "w1", task_id := 1, success := false, error_message := "" } := by
  exact ⟨rfl, rfl⟩

/-- C9: for every list of KeyValue pairs `kvs`,
`group_by_key (sort_key_values kvs)` yields exactly one (key, values) pair
per distinct key occurring in `kvs` (the group keys are duplicate-free and
are exactly the keys of `kvs`), with each values list of length equal to
that key's multiplicity in `kvs`; the group keys appear in ascending order
and the sort is stable: the values of each group are the values of that
key in `kvs` in their original relative order. -/
theorem C9_grouping (kvs : List KeyValue) :
    ((group_by_key (sort_key_values kvs)).map Prod.fst).Nodup ∧
    ((group_by_key (sort_key_values kvs)).map Prod.fst).Pairwise (fun a b => a < b) ∧
    (∀ k, k ∈ (group_by_key (sort_key_values kvs)).map Prod.fst ↔
      k ∈ kvs.map KeyValue.key) ∧
    (∀ g ∈ group_by_key (sort_key_values kvs),
      g.2.length = kvs.countP (fun kv => decide (kv.key = g.1))) ∧
    (∀ g ∈ group_by_key (sort_key_values kvs),
      g.2 = (kvs.filter (fun kv => decide (kv.key = g.1))).map KeyValue.value) := by
  have hsorted := sort_key_values_pairwise kvs
  have hpw := group_by_key_sorted_fst_pairwise _ hsorted
  have hvals : ∀ g ∈ group_by_key (sort_key_values kvs),
      g.2 = (kvs.filter (fun kv => decide (kv.key = g.1))).map KeyValue.value := by
    intro g hg
    rw [group_by_key_sorted_values _ hsorted g hg, sort_key_values_filter]
  refine ⟨hpw.imp (fun h => ne_of_lt h), hpw, fun k => ?_, fun g hg => ?_, hvals⟩
  · rw [group_by_key_fst_mem]
    exact ((sort_key_values_perm kvs).map KeyValue.key).mem_iff
  · rw [hvals g hg, List.length_map, List.countP_eq_length_filter]

/-! ### Coordinator claim theorems -/

theorem maybeCheckPhase_map_tasks (s : Bool) (c : Coordinator) :
    (maybeCheckPhase s c).map_tasks = c.map_tasks := by
  unfold maybeCheckPhase
  split
  · exact checkPhase_map_tasks c
  · rfl

theorem maybeCheckPhase_reduce_tasks (s : Bool) (c : Coordinator) :
    (maybeCheckPhase s c).reduce_tasks = c.reduce_tasks := by
  unfold maybeCheckPhase
  split
  · exact checkPhase_reduce_tasks c
  · rfl

/-- C1 fails on the code: with map task 0 IN_PROGRESS under worker "w1"'s
lease, a CompleteTask from the different worker "w2" with success=true is
acknowledged AND mutates the TaskInfo — the source sets status=COMPLETED
and completion_time unconditionally, checking neither the current status
nor the lease holder (the claim requires the TaskInfo to be left
unchanged here). -/
theorem C1_counterexample :
    statusOf (run (Coordinator.init ["f0"] 1) [.request "w1" 0]) 0 =
      some .in_progress ∧
    ((run (Coordinator.init ["f0"] 1) [.request "w1" 0]).lookupTask 0).map
      TaskInfo.worker_id = some (some "w1") ∧
    (handleTaskCompletion (run (Coordinator.init ["f0"] 1) [.request "w1" 0])
      "w2" 0 true "" 5).2.acknowledged = true ∧
    statusOf (handleTaskCompletion (run (Coordinator.init ["f0"] 1) [.request "w1" 0])
      "w2" 0 true "" 5).1 0 = some .completed := by
  exact ⟨rfl, rfl, rfl, rfl⟩

/-- C1 amended: for every CompleteTask call with success=true on a known
task_id, the coordinator unconditionally sets status=COMPLETED and
completion_time=now and returns acknowledged=true, regardless of the
task's current status or of which worker holds the lease. -/
theorem C1_amended_unconditional_complete (c : Coordinator) (w : String)
    (id : Int) (e : String) (now : Nat)
    (hknown : (c.lookupTask id).isSome = true) :
    statusOf (handleTaskCompletion c w id true e now).1 id = some .completed ∧
    ((handleTaskCompletion c w id true e now).1.lookupTask id).map
      TaskInfo.completion_time = some (some now) ∧
    (handleTaskCompletion c w id true e now).2.acknowledged = true := by
  cases hm : dictLookup c.map_tasks id with
  | some ti =>
    have hbranch : (handleTaskCompletion c w id true e now) =
        (maybeCheckPhase true
          { c with map_tasks := dictUpdate c.map_tasks id (completionUpdate true now) },
         { acknowledged := true }) := by
      unfold handleTaskCompletion
      rw [if_pos (by rw [hm]; rfl)]
    rw [hbranch]
    have hlook : (maybeCheckPhase true
        { c with map_tasks := dictUpdate c.map_tasks id (completionUpdate true now) },
        ({ acknowledged := true } : CompletionReply)).1.lookupTask id =
        some (completionUpdate true now ti) := by
      unfold Coordinator.lookupTask
      rw [maybeCheckPhase_map_tasks]
      show (match dictLookup (dictUpdate c.map_tasks id (completionUpdate true now)) id with
        | some ti => some ti
        | none => dictLookup _ id) = _
      rw [dictLookup_update_self, hm]
      rfl
    refine ⟨?_, ?_, rfl⟩
    · unfold statusOf
      rw [hlook]
      rfl
    · rw [hlook]
      rfl
  | none =>
    cases hr : dictLookup c.reduce_tasks id with
    | some ti =>
      have hbranch : (handleTaskCompletion c w id true e now) =
          (maybeCheckPhase true
            { c with reduce_tasks := dictUpdate c.reduce_tasks id (completionUpdate true now) },
           { acknowledged := true }) := by
        unfold handleTaskCompletion
        rw [if_neg (by rw [hm]; simp), if_pos (by rw [hr]; rfl)]
      rw [hbranch]
      have hlook : (maybeCheckPhase true
          { c with reduce_tasks := dictUpdate c.reduce_tasks id (completionUpdate true now) },
          ({ acknowledged := true } : CompletionReply)).1.lookupTask id =
          some (completionUpdate true now ti) := by
        unfold Coordinator.lookupTask
        rw [maybeCheckPhase_map_tasks]
        show (match dictLookup c.map_tasks id with
          | some ti => some ti
          | none => dictLookup (maybeCheckPhase true _).reduce_tasks id) = _
        rw [hm, maybeCheckPhase_reduce_tasks, dictLookup_update_self, hr]
        rfl
      refine ⟨?_, ?_, rfl⟩
      · unfold statusOf
        rw [hlook]
        rfl
      · rw [hlook]
        rfl
    | none =>
      exfalso
      unfold Coordinator.lookupTask at hknown
      rw [hm, hr] at hknown
      cases hknown

theorem C1_amended_unconditional_complete_witness :
    statusOf (handleTaskCompletion (Coordinator.init ["f0"] 1) "w2" 0 true "" 5).1 0 =
      some .completed ∧
    ((handleTaskCompletion (Coordinator.init ["f0"] 1) "w2" 0 true "" 5).1.lookupTask 0).map
      TaskInfo.completion_time = some (some 5) ∧
    (handleTaskCompletion (Coordinator.init ["f0"] 1) "w2" 0 true "" 5).2.acknowledged = true :=
  C1_amended_unconditional_complete (Coordinator.init ["f0"] 1) "w2" 0 "" 5 (by decide)

/-- C2 fails on the code: map task 0 of a one-file job reaches COMPLETED
(after which map_phase_complete is set), and a subsequent CompleteTask with
success=false on that same task resets it to IDLE — the source's failure
branch resets unconditionally, so status does regress from COMPLETED. -/
theorem C2_counterexample :
    statusOf (run (Coordinator.init ["f0"] 1)
      [.request "w1" 0, .complete "w1" 0 true "" 1]) 0 = some .completed ∧
    statusOf (run (Coordinator.init ["f0"] 1)
      [.request "w1" 0, .complete "w1" 0 true "" 1, .complete "w1" 0 false "" 2]) 0 =
      some .idle := by
  exact ⟨rfl, rfl⟩

theorem statusOf_maybeCheckPhase (s : Bool) (c : Coordinator) (id : Int) :
    statusOf (maybeCheckPhase s c) id = statusOf c id := by
  unfold statusOf Coordinator.lookupTask
  rw [maybeCheckPhase_map_tasks, maybeCheckPhase_reduce_tasks]

theorem statusOf_unfold (c : Coordinator) (id : Int) :
    statusOf c id =
      (match dictLookup c.map_tasks id with
       | some ti => some ti.status
       | none => (dictLookup c.reduce_tasks id).map TaskInfo.status) := by
  unfold statusOf Coordinator.lookupTask
  cases dictLookup c.map_tasks id <;> rfl

theorem completed_stable_step (c : Coordinator) (op : Op) (id : Int)
    (hwf : WF c) (hc : statusOf c id = some .completed)
    (hop : ∀ w e t, op ≠ .complete w id false e t) :
    statusOf (step c op) id = some .completed := by
  cases op with
  | request w t =>
    show statusOf (handleTaskRequest c w t).1 id = some .completed
    unfold handleTaskRequest
    cases hg : getAvailableTask (withWorker c w) with
    | none =>
      split_ifs <;> exact hc
    | some task =>
      show statusOf (assignTask (withWorker c w) w t task) id = some .completed
      rcases getAvailableTask_spec (withWorker c w) task hg with
        ⟨hmp, p, hpmem, hpidle, htask⟩ | ⟨hmp, p, hpmem, hpidle, htask⟩
      · have htyped := hwf.2.2.1 p hpmem
        have htt : task.task_type = .map := htask ▸ htyped.1
        have hti : task.task_id = p.1 := htask ▸ htyped.2
        unfold assignTask
        rw [if_pos htt, hti]
        by_cases hid : p.1 = id
        · exfalso
          have hlk : dictLookup c.map_tasks id = some p.2 := by
            rw [← hid]
            exact dictLookup_of_mem_nodup c.map_tasks p hpmem hwf.1
          rw [statusOf_unfold, hlk] at hc
          have : p.2.status = TaskStatus.completed := Option.some.inj hc
          rw [hpidle] at this
          cases this
        · rw [statusOf_unfold] at hc ⊢
          show (match dictLookup (dictUpdate c.map_tasks p.1 (assignWorker w t)) id with
            | some ti => some ti.status
            | none => (dictLookup c.reduce_tasks id).map TaskInfo.status) = some .completed
          rw [dictLookup_update_ne c.map_tasks p.1 id _ (fun h => hid h.symm)]
          exact hc
      · have htyped := hwf.2.2.2.1 p hpmem
        have htt : task.task_type = .reduce := htask ▸ htyped.1
        have hti : task.task_id = p.1 := htask ▸ htyped.2
        unfold assignTask
        rw [if_neg (by rw [htt]; intro h; cases h), hti]
        rw [statusOf_unfold] at hc ⊢
        show (match dictLookup c.map_tasks id with
          | some ti => some ti.status
          | none => (dictLookup (dictUpdate c.reduce_tasks p.1 (assignWorker w t)) id).map
              TaskInfo.status) = some .completed
        cases hmx : dictLookup c.map_tasks id with
        | some ti =>
          rw [hmx] at hc
          exact hc
        | none =>
          rw [hmx] at hc
          by_cases hid : p.1 = id
          · exfalso
            have hlk : dictLookup c.reduce_tasks id = some p.2 := by
              rw [← hid]
              exact dictLookup_of_mem_nodup c.reduce_tasks p hpmem hwf.2.1
            rw [hlk] at hc
            have : p.2.status = TaskStatus.completed := Option.some.inj hc
            rw [hpidle] at this
            cases this
          · rw [dictLookup_update_ne c.reduce_tasks p.1 id _ (fun h => hid h.symm)]
            exact hc
  | complete w id2 s e t =>
    show statusOf (handleTaskCompletion c w id2 s e t).1 id = some .completed
    have hne : s = false → id2 ≠ id := by
      intro hs hid
      exact hop w e t (by rw [hs, hid])
    unfold handleTaskCompletion
    split_ifs with h1 h2
    · show statusOf (maybeCheckPhase s
        { c with map_tasks := dictUpdate c.map_tasks id2 (completionUpdate s t) }) id =
        some .completed
      rw [statusOf_maybeCheckPhase, statusOf_unfold]
      show (match dictLookup (dictUpdate c.map_tasks id2 (completionUpdate s t)) id with
        | some ti => some ti.status
        | none => (dictLookup c.reduce_tasks id).map TaskInfo.status) = some .completed
      by_cases hid : id2 = id
      · cases s with
        | false => exact absurd hid (hne rfl)
        | true =>
          rw [hid, dictLookup_update_self]
          cases hmx : dictLookup c.map_tasks id with
          | some ti => rfl
          | none =>
            exfalso
            rw [hid, hmx] at h1
            cases h1
      · rw [dictLookup_update_ne c.map_tasks id2 id _ (fun h => hid h.symm)]
        rw [statusOf_unfold] at hc
        exact hc
    · show statusOf (maybeCheckPhase s
        { c with reduce_tasks := dictUpdate c.reduce_tasks id2 (completionUpdate s t) }) id =
        some .completed
      rw [statusOf_maybeCheckPhase, statusOf_unfold]
      show (match dictLookup c.map_tasks id with
        | some ti => some ti.status
        | none => (dictLookup (dictUpdate c.reduce_tasks id2 (completionUpdate s t)) id).map
            TaskInfo.status) = some .completed
      rw [statusOf_unfold] at hc
      cases hmx : dictLookup c.map_tasks id with
      | some ti =>
        rw [hmx] at hc
        exact hc
      | none =>
        rw [hmx] at hc
        by_cases hid : id2 = id
        · cases s with
          | false => exact absurd hid (hne rfl)
          | true =>
            rw [hid, dictLookup_update_self]
            cases hrx : dictLookup c.reduce_tasks id with
            | some ti => rfl
            | none =>
              exfalso
              rw [hid, hrx] at h2
              cases h2
        · rw [dictLookup_update_ne c.reduce_tasks id2 id _ (fun h => hid h.symm)]
          exact hc
    · exact hc
  | monitor t =>
    show statusOf (monitorStep c t) id = some .completed
    unfold monitorStep
    split_ifs
    · exact hc
    · rw [statusOf_unfold] at hc ⊢
      show (match dictLookup (dictMapVals c.map_tasks (resetIfExpired t)) id with
        | some ti => some ti.status
        | none => (dictLookup c.reduce_tasks id).map TaskInfo.status) = some .completed
      rw [dictLookup_mapVals]
      cases hmx : dictLookup c.map_tasks id with
      | some ti =>
        rw [hmx] at hc
        have hcs : ti.status = TaskStatus.completed := Option.some.inj hc
        have hfix : resetIfExpired t ti = ti := by
          unfold resetIfExpired
          rw [if_neg (by rw [hcs]; intro h; cases h.1)]
        show (match (some ti).map (resetIfExpired t) with
          | some ti => some ti.status
          | none => (dictLookup c.reduce_tasks id).map TaskInfo.status) = some .completed
        show some ((resetIfExpired t ti).status) = some .completed
        rw [hfix, hcs]
      | none =>
        rw [hmx] at hc
        exact hc
    · rw [statusOf_unfold] at hc ⊢
      show (match dictLookup c.map_tasks id with
        | some ti => some ti.status
        | none => (dictLookup (dictMapVals c.reduce_tasks (resetIfExpired t)) id).map
            TaskInfo.status) = some .completed
      cases hmx : dictLookup c.map_tasks id with
      | some ti =>
        rw [hmx] at hc
        exact hc
      | none =>
        rw [hmx] at hc
        rw [dictLookup_mapVals]
        cases hrx : dictLookup c.reduce_tasks id with
        | some ti =>
          rw [hrx] at hc
          have hcs : ti.status = TaskStatus.completed := Option.some.inj hc
          have hfix : resetIfExpired t ti = ti := by
            unfold resetIfExpired
            rw [if_neg (by rw [hcs]; intro h; cases h.1)]
          show ((some ti).map (resetIfExpired t)).map TaskInfo.status = some .completed
          show some ((resetIfExpired t ti).status) = some .completed
          rw [hfix, hcs]
        | none =>
          rw [hrx] at hc
          cases hc

/-- C2 amended: once a TaskInfo's status is COMPLETED it is preserved by
RequestTask, by CompleteTask with success=true, and by monitor resets —
but not by a CompleteTask with success=false on that very task (which the
source resets to IDLE unconditionally, see the counterexample); under any
sequence of operations containing no failure report for that task, the
status stays COMPLETED. -/
theorem C2_amended_completed_stable (c : Coordinator) (ops : List Op) (id : Int)
    (hwf : WF c) (hc : statusOf c id = some .completed)
    (hops : ∀ op ∈ ops, ∀ w e t, op ≠ .complete w id false e t) :
    statusOf (run c ops) id = some .completed := by
  induction ops generalizing c with
  | nil => exact hc
  | cons op ops ih =>
    show statusOf (run (step c op) ops) id = some .completed
    exact ih (step c op) (wf_step c op hwf)
      (completed_stable_step c op id hwf hc (hops op (List.mem_cons_self op ops)))
      (fun op2 h2 => hops op2 (List.mem_cons_of_mem op h2))

theorem C2_amended_completed_stable_witness :
    statusOf (run (run (Coordinator.init ["f0"] 1) [.request "w1" 0, .complete "w1" 0 true "" 1])
      [.monitor 20, .request "w2" 21, .complete "w2" 1 true "" 22]) 0 = some .completed :=
  C2_amended_completed_stable
    (run (Coordinator.init ["f0"] 1) [.request "w1" 0, .complete "w1" 0 true "" 1])
    [.monitor 20, .request "w2" 21, .complete "w2" 1 true "" 22] 0
    (by decide) (by decide)
    (by
      intro op hop w e t
      simp only [List.mem_cons, List.not_mem_nil, or_false] at hop
      rcases hop with h | h | h <;> subst h <;> intro hcontra <;> cases hcontra)

/-- C4 fails on the code: after map task 0 completes (setting
map_phase_complete) and a stale failure report resets it to IDLE, the
state has a map task with status IDLE, yet RequestTask hands worker "w3"
a REDUCE task — the phase rule keys on the (now stale) map_phase_complete
flag, not on the map tasks' statuses, so "some map task IDLE or
IN_PROGRESS" and "map_phase_complete is false" are not equivalent. -/
theorem C4_counterexample :
    statusOf (run (Coordinator.init ["f0"] 1)
      [.request "w1" 0, .complete "w1" 0 true "" 1, .complete "w1" 0 false "" 2]) 0 =
      some .idle ∧
    (handleTaskRequest (run (Coordinator.init ["f0"] 1)
      [.request "w1" 0, .complete "w1" 0 true "" 1, .complete "w1" 0 false "" 2])
      "w3" 3).2.task_type = "reduce" := by
  exact ⟨rfl, rfl⟩

/-- C4 amended: for every well-formed coordinator state in which
map_phase_complete is false, RequestTask never returns a REDUCE task: the
reply is a MAP task or the WAIT signal.  (The claim's status-based guard
"at least one map task IDLE or IN_PROGRESS" is not equivalent to
map_phase_complete = false on the code, see the counterexample.) -/
theorem C4_amended_no_reduce_while_map_phase (c : Coordinator) (w : String) (now : Nat)
    (hwf : WF c) (hmp : c.map_phase_complete = false) :
    (handleTaskRequest c w now).2.task_type = "map" ∨
    (handleTaskRequest c w now).2.task_type = "wait" := by
  unfold handleTaskRequest
  cases hg : getAvailableTask (withWorker c w) with
  | none =>
    right
    have hatc : (withWorker c w).all_tasks_complete = false := by
      show c.all_tasks_complete = false
      cases hatc2 : c.all_tasks_complete with
      | false => rfl
      | true =>
        have := hwf.2.2.2.2 hatc2
        rw [hmp] at this
        cases this
    rw [if_neg (by rw [hatc]; intro h; cases h)]
    rfl
  | some task =>
    left
    rcases getAvailableTask_spec (withWorker c w) task hg with
      ⟨_, p, hpmem, _, htask⟩ | ⟨hmp2, _⟩
    · have htt : task.task_type = .map := htask ▸ (hwf.2.2.1 p hpmem).1
      show task.to_dict.task_type = "map"
      show task.task_type.value = "map"
      rw [htt]
      rfl
    · exfalso
      have : c.map_phase_complete = true := hmp2
      rw [hmp] at this
      cases this

theorem C4_amended_no_reduce_while_map_phase_witness :
    (handleTaskRequest (Coordinator.init ["f0"] 1) "w" 0).2.task_type = "map" ∨
    (handleTaskRequest (Coordinator.init ["f0"] 1) "w" 0).2.task_type = "wait" :=
  C4_amended_no_reduce_while_map_phase (Coordinator.init ["f0"] 1) "w" 0
    (by decide) (by decide)

/-- C5: for every coordinator state and every sequence of operations
(RequestTask, CompleteTask with either outcome, monitor passes), the flags
map_phase_complete and all_tasks_complete are monotone: once true they
stay true — so done(), which reads all_tasks_complete, never goes from
true back to false. -/
theorem C5_flags_monotone (c : Coordinator) (ops : List Op) :
    (c.map_phase_complete = true → (run c ops).map_phase_complete = true) ∧
    (c.all_tasks_complete = true → (run c ops).all_tasks_complete = true) := by
  induction ops generalizing c with
  | nil => exact ⟨id, id⟩
  | cons op ops ih =>
    refine ⟨fun h => ?_, fun h => ?_⟩
    · exact (ih (step c op)).1 ((step_flags_mono c op).1 h)
    · exact (ih (step c op)).2 ((step_flags_mono c op).2 h)

theorem C5_flags_monotone_witness :
    (run doneState [Op.request "w" 0, Op.monitor 11,
      Op.complete "w" 0 false "" 12]).map_phase_complete = true ∧
    (run doneState [Op.request "w" 0, Op.monitor 11,
      Op.complete "w" 0 false "" 12]).all_tasks_complete = true :=
  ⟨(C5_flags_monotone doneState
      [Op.request "w" 0, Op.monitor 11, Op.complete "w" 0 false "" 12]).1 rfl,
   (C5_flags_monotone doneState
      [Op.request "w" 0, Op.monitor 11, Op.complete "w" 0 false "" 12]).2 rfl⟩

end MR
